import Mathlib

/-!
Verification of the subscription-notify pipeline (subscription_notify.py):
field extraction from raw Notion JSON, eligibility filtering, message
rendering, and the emit/dispatch loop of the lambda handler.

The shallow embedding below translates the Python source.  JSON values are
modelled by an inductive type; Python numbers are modelled by rationals,
with the day offsets produced by the Notion formula modelled as integers
(the shape the data model prescribes for normalized records).  Fallible
Python code (subscripting, attribute access, int conversion) is modelled
with Except over an error type mirroring Python's exception classes.
-/

/-- A normalized record as produced by field extraction and consumed by the
filter and the renderer.  Field names follow the dictionary literal built at
the end of the extraction loop; the field named cost holds the formatted
display string (the spec calls it cost_display), cost_raw the unformatted
number.  Absent values (Python None) are modelled with Option. -/
structure NormalizedRecord where
  name : Option String
  cost : Option String
  cost_raw : Option ℚ
  date_remaining : Option Int
  status : Option String
  next_renewal : Option String
deriving DecidableEq, Repr

instance : Inhabited NormalizedRecord :=
  ⟨⟨none, none, none, none, none, none⟩⟩

/-- Model of Python's str.join: concatenate with a separator between
consecutive elements. -/
def joinSep (sep : String) : List String → String
  | [] => ""
  | [s] => s
  | s :: rest => s ++ sep ++ joinSep sep rest

/-- Group a reversed digit list into chunks of three (least significant digits
first).  Used to model the thousands grouping of Python's format spec. -/
def chunk3 : List Char → List (List Char)
  | [] => []
  | [a] => [[a]]
  | [a, b] => [[a, b]]
  | a :: b :: c :: rest => [a, b, c] :: chunk3 rest

/-- Thousands-grouped decimal rendering of a natural number, modelling the
comma format spec of Python f-strings on a nonnegative int. -/
def pyNatComma (n : Nat) : String :=
  let ds := Nat.toDigits 10 n
  joinSep "," (((chunk3 ds.reverse).reverse).map (fun g => String.mk g.reverse))

/-- Comma-grouped rendering of an integer, modelling f-string comma formatting
of a Python int (a leading minus sign for negative values). -/
def pyIntComma (i : Int) : String :=
  (if i < 0 then "-" else "") ++ pyNatComma i.natAbs

/-- Truncation of a rational toward zero: the value of Python's int() applied
to an exact number.  T-division of the numerator by the denominator. -/
def ratTrunc (q : ℚ) : Int :=
  Int.tdiv q.num (Int.ofNat q.den)

/-- The currency display string the extractor builds for a raw cost value:
the f-string with the currency sign, int() truncation and comma grouping. -/
def format_cost (q : ℚ) : String :=
  "₩" ++ pyIntComma (ratTrunc q)

/-- The fixed day-set of the filter, line 85 of the source. -/
def allowed_days : List Int := [1, 2, 3, 5, 7]

/-- The filter of filter_for_notifications, lines 86-99: one pass over the
extracted records appending each eligible record to exactly one of the three
category lists, returned as (due_today, due_soon, overdue). -/
def filter_for_notifications :
    List NormalizedRecord →
      List NormalizedRecord × List NormalizedRecord × List NormalizedRecord
  | [] => ([], [], [])
  | item :: rest =>
    let prev := filter_for_notifications rest
    if item.status = some "Active" then
      match item.date_remaining with
      | none => prev
      | some dr =>
        if dr < 0 then (prev.1, prev.2.1, item :: prev.2.2)
        else if dr = 0 then (item :: prev.1, prev.2.1, prev.2.2)
        else if dr ∈ allowed_days then (prev.1, item :: prev.2.1, prev.2.2)
        else prev
    else prev

/-- Boolean test for membership in the due_today category: active status and
a zero day offset (reached only when the offset is not negative). -/
def todayB (r : NormalizedRecord) : Bool :=
  if r.status = some "Active" then
    match r.date_remaining with
    | none => false
    | some dr => decide (¬ dr < 0 ∧ dr = 0)
  else false

/-- Boolean test for membership in the due_soon category: active status and a
day offset in the fixed day-set, reached after the negative and zero tests. -/
def soonB (r : NormalizedRecord) : Bool :=
  if r.status = some "Active" then
    match r.date_remaining with
    | none => false
    | some dr => decide (¬ dr < 0 ∧ ¬ dr = 0 ∧ dr ∈ allowed_days)
  else false

/-- Boolean test for membership in the overdue category: active status and a
negative day offset. -/
def overB (r : NormalizedRecord) : Bool :=
  if r.status = some "Active" then
    match r.date_remaining with
    | none => false
    | some dr => decide (dr < 0)
  else false

/-- The header string for the overdue block, line 141 of the source. -/
def OVERDUE_HEADER : String := "❗ 결제 예정일이 지난 서비스가 있습니다!"

/-- The header string for the due-today block, line 143 of the source. -/
def DUE_TODAY_HEADER : String := "❗ 오늘 결제 예정인 서비스가 있습니다."

/-- The header string for the due-soon block, line 145 of the source. -/
def DUE_SOON_HEADER : String := "⚠️ 일주일 이내 결제 예정인 서비스가 있습니다."

/-- The header fragment the renderer matches to detect the overdue block. -/
def overdueHeaderStart : String := "❗ 결제 예정일이 지난 서비스"

/-- The header fragment the renderer matches to detect the due-today block. -/
def todayHeaderStart : String := "❗ 오늘 결제 예정인 서비스"

/-- Model of the Python str.startswith test, by character-list comparison. -/
def pyStarts (s p : String) : Bool :=
  List.isPrefixOf p.data s.data

/-- The composite sort key of generate_section_message, lines 108-111: the
next_renewal string with None replaced by the empty string, paired with the
negated raw cost with a falsy (absent or zero) cost replaced by zero. -/
def sort_key (item : NormalizedRecord) : String × ℚ :=
  (item.next_renewal.getD "", -(item.cost_raw.getD 0))

/-- Lexicographic comparison of two character lists by code point, the
comparison Python applies to strings. -/
def charListLt : List Char → List Char → Bool
  | [], [] => false
  | [], _ :: _ => true
  | _ :: _, [] => false
  | a :: as, b :: bs =>
    if a < b then true else if b < a then false else charListLt as bs

/-- The strict string order of the Python tuple comparison. -/
def strLtB (a b : String) : Bool :=
  charListLt a.data b.data

/-- The order the Python tuple comparison imposes on sort keys: primary on
the next_renewal string, and on equal strings on the negated cost. -/
def keyLE (a b : NormalizedRecord) : Prop :=
  strLtB (sort_key a).1 (sort_key b).1 = true ∨
    ((sort_key a).1 = (sort_key b).1 ∧ (sort_key a).2 ≤ (sort_key b).2)

instance : DecidableRel keyLE := fun a b => by
  unfold keyLE
  infer_instance

/-- Python's sorted builds a fresh, stably sorted list; insertion sort with
the key order is a stable sort and hence computes the same list. -/
def pySort (items : List NormalizedRecord) : List NormalizedRecord :=
  List.insertionSort keyLE items

/-- Python rendering of an optional int inside an f-string: str of the value,
or the text None when the value is absent. -/
def pyOptIntStr : Option Int → String
  | none => "None"
  | some d => toString d

/-- One iteration of the display loop, lines 115-128: format one record line,
dispatching on the header fragment.  Raises a TypeError (modelled as an
error) when the overdue branch applies abs to an absent day offset. -/
def line_for (header : String) (item : NormalizedRecord) :
    Except String String :=
  let name := item.name.getD ""
  let cost := item.cost.getD ""
  let nr := item.next_renewal.getD ""
  if pyStarts header overdueHeaderStart then
    match item.date_remaining with
    | none => .error "TypeError"
    | some d =>
      .ok ("  • " ++ name ++ " | " ++ cost ++ " | D+" ++ toString d.natAbs
        ++ " (" ++ nr ++ ")")
  else if pyStarts header todayHeaderStart then
    .ok ("  • " ++ name ++ " | " ++ cost ++ " | D-0 (" ++ nr ++ ")")
  else
    .ok ("  • " ++ name ++ " | " ++ cost ++ " | D-"
      ++ pyOptIntStr item.date_remaining ++ " (" ++ nr ++ ")")

/-- Total version of the line renderer, agreeing with line_for whenever the
latter succeeds (the overdue branch with an absent day offset is the only
failing case; there it returns a junk line never used under the side
condition of the lemmas below). -/
def lineStr (header : String) (item : NormalizedRecord) : String :=
  match line_for header item with
  | .ok s => s
  | .error _ => ""

/-- The overflow line appended when more than four records exist. -/
def overflowLine (remaining : Nat) : String :=
  "  • 이 외 " ++ toString remaining ++ "개"

/-- Model of the Python per-item loop building a list, aborting at the first
raised exception. -/
def mapExcept (f : α → Except ε β) : List α → Except ε (List β)
  | [] => .ok []
  | a :: as =>
    match f a with
    | .error e => .error e
    | .ok b =>
      match mapExcept f as with
      | .error e => .error e
      | .ok bs => .ok (b :: bs)

/-- The list of lines generate_section_message builds (lines 107-131): the
header, one line for each of the first four records of the sorted list, and
an overflow line when records remain beyond the displayed four. -/
def section_lines (header : String) (items : List NormalizedRecord) :
    Except String (List String) :=
  let sorted_items := pySort items
  let display_items := sorted_items.take 4
  match mapExcept (line_for header) display_items with
  | .error e => .error e
  | .ok body =>
    let remaining := sorted_items.length - display_items.length
    .ok (header :: body ++
      (if remaining > 0 then [overflowLine remaining] else []))

/-- generate_section_message, lines 101-132: the newline join of the lines. -/
def generate_section_message (header : String)
    (items : List NormalizedRecord) : Except String String :=
  match section_lines header items with
  | .error e => .error e
  | .ok lines => .ok (joinSep "\n" lines)

/-- generate_notification_messages, lines 134-146: one block per non-empty
category, in the fixed order overdue, due_today, due_soon.  An exception
raised while rendering a block propagates. -/
def generate_notification_messages (overdue due_today due_soon :
    List NormalizedRecord) : Except String (List String) := do
  let m1 ←
    if overdue.isEmpty then pure ([] : List String)
    else do
      let s ← generate_section_message OVERDUE_HEADER overdue
      pure [s]
  let m2 ←
    if due_today.isEmpty then pure ([] : List String)
    else do
      let s ← generate_section_message DUE_TODAY_HEADER due_today
      pure [s]
  let m3 ←
    if due_soon.isEmpty then pure ([] : List String)
    else do
      let s ← generate_section_message DUE_SOON_HEADER due_soon
      pure [s]
  pure (m1 ++ m2 ++ m3)

/-- The emit loop of lambda_handler, lines 169-172: print each message, then
send it when both push credentials are configured.  The send outcome comes
from an oracle indexed by the send counter; a failed send raises, aborting
the loop.  Returns the printed outputs in order and a success flag. -/
def emit_loop (creds : Bool) (oracle : Nat → Bool) :
    Nat → List String → List String × Bool
  | _, [] => ([], true)
  | i, m :: rest =>
    let printed := "\n" ++ m
    if creds then
      if oracle i then
        let next := emit_loop creds oracle (i + 1) rest
        (printed :: next.1, next.2)
      else ([printed], false)
    else
      let next := emit_loop creds oracle (i + 1) rest
      (printed :: next.1, next.2)

/-- JSON values as delivered by the data-source API and traversed by the
extractor.  Python None and JSON null coincide as the null constructor. -/
inductive J where
  | null
  | bool (b : Bool)
  | num (q : ℚ)
  | str (s : String)
  | arr (elems : List J)
  | obj (kvs : List (String × J))

/-- The Python exception classes the extractor can raise. -/
inductive PErr where
  | keyErr
  | typeErr
  | attrErr
  | indexErr
  | valueErr
deriving DecidableEq, Repr

/-- Python subscripting with a string key: dictionary lookup raising KeyError
on a missing key; on a non-dictionary value the subscript raises TypeError. -/
def J.subKey : J → String → Except PErr J
  | .obj kvs, k =>
    match kvs.find? (fun kv => kv.1 == k) with
    | some kv => .ok kv.2
    | none => .error .keyErr
  | _, _ => .error .typeErr

/-- Python subscripting with a nonnegative int index: list indexing raising
IndexError when out of range; a one-character string on strings; KeyError on
dictionaries (no such integer key exists in the modelled objects); TypeError
otherwise. -/
def J.subIdx : J → Nat → Except PErr J
  | .arr xs, i =>
    match xs.get? i with
    | some v => .ok v
    | none => .error .indexErr
  | .str s, i =>
    match s.data.get? i with
    | some c => .ok (.str (String.mk [c]))
    | none => .error .indexErr
  | .obj _, _ => .error .keyErr
  | _, _ => .error .typeErr

/-- Python's dict.get with a default: returns the stored value when the key
is present (even when that value is null), the default when the key is
missing, and raises AttributeError when the receiver is not a dictionary
(in particular when it is None). -/
def J.getOr : J → String → J → Except PErr J
  | .obj kvs, k, dflt =>
    match kvs.find? (fun kv => kv.1 == k) with
    | some kv => .ok kv.2
    | none => .ok dflt
  | _, _, _ => .error .attrErr

/-- The value a variable holds after a try/except block that assigns None on
any exception: the computed value on success, None on failure. -/
def caught : Except PErr J → J
  | .ok v => v
  | .error _ => .null

/-- Accumulate a decimal digit sequence; none on any non-digit character. -/
def parseDigitsAux : List Char → Nat → Option Nat
  | [], acc => some acc
  | c :: cs, acc =>
    if c.isDigit then parseDigitsAux cs (acc * 10 + (c.toNat - 48))
    else none

/-- Parse an optionally signed decimal digit string, the int() forms of the
modelled inputs (whitespace padding and underscore separators are outside
the modelled inputs). -/
def pyIntParse : List Char → Option Int
  | [] => none
  | '-' :: rest =>
    match rest with
    | [] => none
    | _ => (parseDigitsAux rest 0).map (fun n => -(n : Int))
  | '+' :: rest =>
    match rest with
    | [] => none
    | _ => (parseDigitsAux rest 0).map (fun n => (n : Int))
  | s => (parseDigitsAux s 0).map (fun n => (n : Int))

/-- Python's int() applied to a JSON value: truncation toward zero on
numbers, 0 or 1 on booleans, decimal parsing of strings raising ValueError
when the string is not an optionally signed digit sequence, and TypeError
on every other value. -/
def pyIntOfJ : J → Except PErr Int
  | .num q => .ok (ratTrunc q)
  | .bool b => .ok (if b then 1 else 0)
  | .str s =>
    match pyIntParse s.data with
    | some n => .ok n
    | none => .error .valueErr
  | _ => .error .typeErr

/-- Lines 50-52 of the source: the formatted cost is None when the raw cost
is None, and otherwise the f-string of int() of the raw cost — computed
outside any try block, so a failing int() propagates. -/
def mkCostFormatted : J → Except PErr J
  | .null => .ok .null
  | c => do
    let n ← pyIntOfJ c
    .ok (.str ("₩" ++ pyIntComma n))

/-- The raw-level record appended for each row, lines 67-74: the dictionary
literal with the six extracted values (cost holds the formatted string). -/
structure JRecord where
  name : J
  cost : J
  cost_raw : J
  date_remaining : J
  status : J
  next_renewal : J

/-- The body of the extraction loop for one row, lines 36-74.  The name,
raw-cost, date-remaining and status lookups are each wrapped in try/except
and degrade to None; the cost formatting and the Next Renewal get-chain are
not wrapped, so their exceptions propagate out of the whole extraction. -/
def extract_row (row : J) : Except PErr JRecord := do
  let properties ← row.getOr "properties" (.obj [])
  let name := caught (do
    let a ← properties.subKey "Name"
    let b ← a.subKey "title"
    let c ← b.subIdx 0
    c.subKey "plain_text")
  let cost := caught (do
    let a ← properties.subKey "Cost"
    a.subKey "number")
  let cost_formatted ← mkCostFormatted cost
  let date_remaining := caught (do
    let a ← properties.subKey "Date Remaining"
    let b ← a.subKey "formula"
    b.subKey "number")
  let status := caught (do
    let a ← properties.subKey "Status"
    let b ← a.subKey "status"
    b.subKey "name")
  let next_renewal ← do
    let a ← properties.getOr "Next Renewal" (.obj [])
    let b ← a.getOr "formula" (.obj [])
    let c ← b.getOr "date" (.obj [])
    c.getOr "start" .null
  pure {
    name := name
    cost := cost_formatted
    cost_raw := cost
    date_remaining := date_remaining
    status := status
    next_renewal := next_renewal }

/-- Iteration over the value of the results key: the loop requires a JSON
array (iteration over other shapes is outside the modelled inputs and is
reported as a TypeError). -/
def pyIter : J → Except PErr (List J)
  | .arr xs => .ok xs
  | _ => .error .typeErr

/-- extract_notion_fields, lines 29-75: iterate over the rows of the results
key (an empty list when the key is missing), extracting one record per row;
an exception raised for any row aborts the whole extraction. -/
def extract_notion_fields (notion_data : J) : Except PErr (List JRecord) := do
  let res ← notion_data.getOr "results" (.arr [])
  let rows ← pyIter res
  mapExcept extract_row rows

/-- Following the spec's words for the cost rounding, not the code: the
nearest integer to a rational, with ties rounded upward. -/
def roundNearest (q : ℚ) : Int := ⌊q + 1 / 2⌋

/-- Following the spec's words for the cost display, not the code: the
currency sign followed by the comma grouping of the nearest integer. -/
def cost_display_spec (q : ℚ) : String := "₩" ++ pyIntComma (roundNearest q)

/-- A fully populated raw row whose Next Renewal formula carries a null date
value (the shape the data source produces for an empty date), every other
property well formed. -/
def rowNullDate : J := .obj [("properties", .obj [
  ("Name", .obj [("title", .arr [.obj [("plain_text", .str "Netflix")]])]),
  ("Cost", .obj [("number", .num 15000)]),
  ("Date Remaining", .obj [("formula", .obj [("number", .num 3)])]),
  ("Status", .obj [("status", .obj [("name", .str "Active")])]),
  ("Next Renewal", .obj [("formula", .obj [("date", .null)])])])]

/-- A fully populated raw row whose Cost number slot carries a non-numeric
string, every other property well formed. -/
def rowBadCost : J := .obj [("properties", .obj [
  ("Name", .obj [("title", .arr [.obj [("plain_text", .str "Netflix")]])]),
  ("Cost", .obj [("number", .str "abc")]),
  ("Date Remaining", .obj [("formula", .obj [("number", .num 3)])]),
  ("Status", .obj [("status", .obj [("name", .str "Active")])]),
  ("Next Renewal", .obj [("formula",
    .obj [("date", .obj [("start", .str "2024-01-01")])])])])]

/-- A raw row with the Next Renewal property missing altogether (as opposed
to present with a null value), every other property well formed. -/
def rowNoRenewal : J := .obj [("properties", .obj [
  ("Name", .obj [("title", .arr [.obj [("plain_text", .str "Netflix")]])]),
  ("Cost", .obj [("number", .num 15000)]),
  ("Date Remaining", .obj [("formula", .obj [("number", .num 3)])]),
  ("Status", .obj [("status", .obj [("name", .str "Active")])])])]

/-- A minimal raw row carrying only a Cost property with the given number
slot value. -/
def rowCost (c : J) : J :=
  .obj [("properties", .obj [("Cost", .obj [("number", c)])])]

/-- The normalized record of the end-to-end scenario: an active Netflix
subscription three days overdue at a raw cost of 12000. -/
def netflixRec : NormalizedRecord :=
  { name := some "Netflix"
    cost := some (format_cost 12000)
    cost_raw := some 12000
    date_remaining := some (-3)
    status := some "Active"
    next_renewal := some "2024-01-01" }

/-- An active due-soon record with the given name, raw cost, day offset and
renewal date. -/
def soonRec (nm : String) (c : ℚ) (d : Int) (nr : String) : NormalizedRecord :=
  { name := some nm
    cost := some (format_cost c)
    cost_raw := some c
    date_remaining := some d
    status := some "Active"
    next_renewal := some nr }

/-- The cheaper record of the equal-renewal tiebreak scenario. -/
def pairLow : NormalizedRecord := soonRec "Low" 5000 3 "2024-03-01"

/-- The dearer record of the equal-renewal tiebreak scenario. -/
def pairHigh : NormalizedRecord := soonRec "High" 9000 3 "2024-03-01"

/-- Six due-soon records, the first two being the equal-renewal tiebreak
pair, used to exercise truncation and overflow. -/
def sixRecs : List NormalizedRecord :=
  [pairLow, pairHigh,
   soonRec "C" 3000 1 "2024-02-27",
   soonRec "D" 4000 2 "2024-02-28",
   soonRec "E" 1000 5 "2024-03-02",
   soonRec "F" 2000 7 "2024-03-04"]

/-- An active record with a day offset of 4, which no category admits. -/
def rec4 : NormalizedRecord := soonRec "Four" 1000 4 "2024-03-05"

/-- The record the extractor produces for the minimal row carrying only a
numeric Cost of 15000: every other field degrades to None. -/
def rec15000 : JRecord :=
  { name := J.null
    cost := .str ("₩" ++ pyIntComma (ratTrunc 15000))
    cost_raw := .num 15000
    date_remaining := J.null
    status := J.null
    next_renewal := J.null }

/-- The record the extractor produces for the minimal row carrying only a
numeric Cost of three fifths: the display truncates toward zero. -/
def recFrac : JRecord :=
  { name := J.null
    cost := .str "₩0"
    cost_raw := .num (mkRat 3 5)
    date_remaining := J.null
    status := J.null
    next_renewal := J.null }

/-- Dereference a record id in the record heap. -/
def deref (recs : List NormalizedRecord) (i : Nat) : NormalizedRecord :=
  recs.getD i default

/-- The sort-key order of two record ids, read through the heap. -/
def keyLEH (recs : List NormalizedRecord) (i j : Nat) : Prop :=
  keyLE (deref recs i) (deref recs j)

instance (recs : List NormalizedRecord) : DecidableRel (keyLEH recs) :=
  fun i j => by
    unfold keyLEH
    infer_instance

/-- Reference-level rendering of one section: the record list is a list of
ids into the record heap; sorted builds a fresh id list, every record access
is a read, and no operation of the loop writes to the heap, so the heap is
returned as received. -/
def gsm_heap (recs : List NormalizedRecord) (header : String)
    (items : List Nat) : Except String String × List NormalizedRecord :=
  let sorted_ids := List.insertionSort (keyLEH recs) items
  let display_ids := sorted_ids.take 4
  match mapExcept (fun i => line_for header (deref recs i)) display_ids with
  | .error e => (.error e, recs)
  | .ok body =>
    let remaining := sorted_ids.length - display_ids.length
    (.ok (joinSep "\n" (header :: body ++
      (if remaining > 0 then [overflowLine remaining] else []))), recs)

theorem todayB_iff (r : NormalizedRecord) :
    todayB r = true ↔ r.status = some "Active" ∧ r.date_remaining = some 0 := by
  unfold todayB
  by_cases hs : r.status = some "Active" <;>
    cases hdr : r.date_remaining <;> simp [hs, hdr]
  omega

theorem soonB_iff (r : NormalizedRecord) :
    soonB r = true ↔ r.status = some "Active" ∧
      ∃ d, r.date_remaining = some d ∧ ¬ d < 0 ∧ d ≠ 0 ∧ d ∈ allowed_days := by
  unfold soonB
  by_cases hs : r.status = some "Active" <;>
    cases hdr : r.date_remaining <;> simp [hs, hdr]

theorem overB_iff (r : NormalizedRecord) :
    overB r = true ↔ r.status = some "Active" ∧
      ∃ d, r.date_remaining = some d ∧ d < 0 := by
  unfold overB
  by_cases hs : r.status = some "Active" <;>
    cases hdr : r.date_remaining <;> simp [hs, hdr]

theorem allowed_days_pos {d : Int} (h : d ∈ allowed_days) : 0 < d := by
  simp [allowed_days] at h
  omega

theorem todayB_soonB_disjoint (r : NormalizedRecord) :
    todayB r = true → soonB r = true → False := by
  rw [todayB_iff, soonB_iff]
  rintro ⟨-, h0⟩ ⟨-, d, hd, -, hne, -⟩
  rw [h0] at hd
  exact hne (Option.some.inj hd).symm

theorem todayB_overB_disjoint (r : NormalizedRecord) :
    todayB r = true → overB r = true → False := by
  rw [todayB_iff, overB_iff]
  rintro ⟨-, h0⟩ ⟨-, d, hd, hneg⟩
  rw [h0] at hd
  have : (0 : Int) = d := Option.some.inj hd
  omega

theorem soonB_overB_disjoint (r : NormalizedRecord) :
    soonB r = true → overB r = true → False := by
  rw [soonB_iff, overB_iff]
  rintro ⟨-, d, hd, hpos, -, -⟩ ⟨-, e, he, hneg⟩
  rw [hd] at he
  have : d = e := Option.some.inj he
  omega

/-- The one-pass filter computes the three Boolean filters of the input. -/
theorem filter_for_notifications_eq (l : List NormalizedRecord) :
    filter_for_notifications l =
      (l.filter todayB, l.filter soonB, l.filter overB) := by
  induction l with
  | nil => rfl
  | cons item rest ih =>
    simp only [filter_for_notifications, ih, List.filter_cons]
    by_cases hs : item.status = some "Active"
    · cases hdr : item.date_remaining with
      | none => simp [todayB, soonB, overB, hs, hdr]
      | some dr =>
        by_cases h1 : dr < 0
        · simp [todayB, soonB, overB, hs, hdr, h1]
        · by_cases h2 : dr = 0
          · simp [todayB, soonB, overB, hs, hdr, h1, h2]
          · by_cases h3 : dr ∈ allowed_days
            · simp [todayB, soonB, overB, hs, hdr, h1, h2, h3]
            · simp [todayB, soonB, overB, hs, hdr, h1, h2, h3]
    · simp [todayB, soonB, overB, hs]

/-- C1: the filter returns three order-preserving sublists (due_today,
due_soon, overdue) that are pairwise disjoint and whose union is exactly the
input records with active status and a present day offset that is negative,
zero, or in the fixed day-set; an active record with offset 4 appears in
none of them. -/
theorem filter_partition_properties (l : List NormalizedRecord) :
    List.Sublist (filter_for_notifications l).1 l ∧
    List.Sublist (filter_for_notifications l).2.1 l ∧
    List.Sublist (filter_for_notifications l).2.2 l ∧
    (∀ r, r ∈ (filter_for_notifications l).1 →
      r ∉ (filter_for_notifications l).2.1 ∧
        r ∉ (filter_for_notifications l).2.2) ∧
    (∀ r, r ∈ (filter_for_notifications l).2.1 →
      r ∉ (filter_for_notifications l).2.2) ∧
    (∀ r, (r ∈ (filter_for_notifications l).1 ∨
        r ∈ (filter_for_notifications l).2.1 ∨
        r ∈ (filter_for_notifications l).2.2) ↔
      (r ∈ l ∧ r.status = some "Active" ∧
        ∃ d, r.date_remaining = some d ∧
          (d < 0 ∨ d = 0 ∨ d ∈ allowed_days))) ∧
    (∀ r, r ∈ l → r.status = some "Active" → r.date_remaining = some 4 →
      r ∉ (filter_for_notifications l).1 ∧
        r ∉ (filter_for_notifications l).2.1 ∧
        r ∉ (filter_for_notifications l).2.2) := by
  rw [filter_for_notifications_eq]
  dsimp only
  refine ⟨List.filter_sublist l, List.filter_sublist l, List.filter_sublist l,
    ?_, ?_, ?_, ?_⟩
  · intro r hr
    have ht := (List.mem_filter.mp hr).2
    constructor
    · intro hs
      exact todayB_soonB_disjoint r ht (List.mem_filter.mp hs).2
    · intro ho
      exact todayB_overB_disjoint r ht (List.mem_filter.mp ho).2
  · intro r hr ho
    exact soonB_overB_disjoint r (List.mem_filter.mp hr).2
      (List.mem_filter.mp ho).2
  · intro r
    simp only [List.mem_filter]
    constructor
    · rintro (⟨hm, hp⟩ | ⟨hm, hp⟩ | ⟨hm, hp⟩)
      · obtain ⟨hs, h0⟩ := (todayB_iff r).mp hp
        exact ⟨hm, hs, 0, h0, Or.inr (Or.inl rfl)⟩
      · obtain ⟨hs, d, hd, h1, h2, h3⟩ := (soonB_iff r).mp hp
        exact ⟨hm, hs, d, hd, Or.inr (Or.inr h3)⟩
      · obtain ⟨hs, d, hd, h1⟩ := (overB_iff r).mp hp
        exact ⟨hm, hs, d, hd, Or.inl h1⟩
    · rintro ⟨hm, hs, d, hd, (h1 | h1 | h1)⟩
      · exact Or.inr (Or.inr ⟨hm, (overB_iff r).mpr ⟨hs, d, hd, h1⟩⟩)
      · exact Or.inl ⟨hm, (todayB_iff r).mpr ⟨hs, by rw [hd, h1]⟩⟩
      · have hpos := allowed_days_pos h1
        exact Or.inr (Or.inl ⟨hm, (soonB_iff r).mpr
          ⟨hs, d, hd, by omega, by omega, h1⟩⟩)
  · intro r hm hs h4
    refine ⟨?_, ?_, ?_⟩ <;> intro hmem
    · obtain ⟨-, h0⟩ := (todayB_iff r).mp (List.mem_filter.mp hmem).2
      rw [h4] at h0
      have : (4 : Int) = 0 := Option.some.inj h0
      omega
    · obtain ⟨-, d, hd, -, -, h3⟩ := (soonB_iff r).mp (List.mem_filter.mp hmem).2
      rw [h4] at hd
      have h4d : (4 : Int) = d := Option.some.inj hd
      simp [allowed_days] at h3
      omega
    · obtain ⟨-, d, hd, h1⟩ := (overB_iff r).mp (List.mem_filter.mp hmem).2
      rw [h4] at hd
      have : (4 : Int) = d := Option.some.inj hd
      omega

/-- Witness for C1: in the two-record list with the overdue Netflix record
and an active record at offset 4, the offset-4 record is in no category. -/
theorem filter_partition_properties_witness :
    rec4 ∉ (filter_for_notifications [netflixRec, rec4]).1 ∧
      rec4 ∉ (filter_for_notifications [netflixRec, rec4]).2.1 ∧
      rec4 ∉ (filter_for_notifications [netflixRec, rec4]).2.2 :=
  (filter_partition_properties [netflixRec, rec4]).2.2.2.2.2.2 rec4
    (by decide) (by decide) (by decide)

/-- C8: re-running the filter on any one of its own output categories
reproduces that category in its own slot and leaves the other two empty. -/
theorem filter_idempotent_on_categories (l : List NormalizedRecord) :
    filter_for_notifications (filter_for_notifications l).1 =
      ((filter_for_notifications l).1, [], []) ∧
    filter_for_notifications (filter_for_notifications l).2.1 =
      ([], (filter_for_notifications l).2.1, []) ∧
    filter_for_notifications (filter_for_notifications l).2.2 =
      ([], [], (filter_for_notifications l).2.2) := by
  simp only [filter_for_notifications_eq]
  refine ⟨?_, ?_, ?_⟩
  · have h1 : List.filter todayB (List.filter todayB l) =
        List.filter todayB l :=
      List.filter_eq_self.mpr fun a ha => (List.mem_filter.mp ha).2
    have h2 : List.filter soonB (List.filter todayB l) = [] :=
      List.filter_eq_nil_iff.mpr fun a ha hp =>
        todayB_soonB_disjoint a (List.mem_filter.mp ha).2 hp
    have h3 : List.filter overB (List.filter todayB l) = [] :=
      List.filter_eq_nil_iff.mpr fun a ha hp =>
        todayB_overB_disjoint a (List.mem_filter.mp ha).2 hp
    rw [h1, h2, h3]
  · have h1 : List.filter todayB (List.filter soonB l) = [] :=
      List.filter_eq_nil_iff.mpr fun a ha hp =>
        todayB_soonB_disjoint a hp (List.mem_filter.mp ha).2
    have h2 : List.filter soonB (List.filter soonB l) =
        List.filter soonB l :=
      List.filter_eq_self.mpr fun a ha => (List.mem_filter.mp ha).2
    have h3 : List.filter overB (List.filter soonB l) = [] :=
      List.filter_eq_nil_iff.mpr fun a ha hp =>
        soonB_overB_disjoint a (List.mem_filter.mp ha).2 hp
    rw [h1, h2, h3]
  · have h1 : List.filter todayB (List.filter overB l) = [] :=
      List.filter_eq_nil_iff.mpr fun a ha hp =>
        todayB_overB_disjoint a hp (List.mem_filter.mp ha).2
    have h2 : List.filter soonB (List.filter overB l) = [] :=
      List.filter_eq_nil_iff.mpr fun a ha hp =>
        soonB_overB_disjoint a hp (List.mem_filter.mp ha).2
    have h3 : List.filter overB (List.filter overB l) =
        List.filter overB l :=
      List.filter_eq_self.mpr fun a ha => (List.mem_filter.mp ha).2
    rw [h1, h2, h3]

theorem charListLt_trans : ∀ (a b c : List Char), charListLt a b = true →
    charListLt b c = true → charListLt a c = true
  | [], b, c, h1, h2 => by
    cases b with
    | nil => simp [charListLt] at h1
    | cons y ys =>
      cases c with
      | nil => simp [charListLt] at h2
      | cons z zs => simp [charListLt]
  | _ :: _, [], _, h1, _ => by simp [charListLt] at h1
  | _ :: _, _ :: _, [], _, h2 => by simp [charListLt] at h2
  | x :: xs, y :: ys, z :: zs, h1, h2 => by
    simp only [charListLt] at h1 h2 ⊢
    rcases lt_trichotomy x y with hxy | hxy | hxy
    · rcases lt_trichotomy y z with hyz | hyz | hyz
      · simp [lt_trans hxy hyz]
      · subst hyz
        simp [hxy]
      · rw [if_neg (not_lt.mpr (le_of_lt hyz)), if_pos hyz] at h2
        exact absurd h2 (by simp)
    · subst hxy
      rw [if_neg (lt_irrefl x), if_neg (lt_irrefl x)] at h1
      rcases lt_trichotomy x z with hxz | hxz | hxz
      · simp [hxz]
      · subst hxz
        rw [if_neg (lt_irrefl x), if_neg (lt_irrefl x)] at h2 ⊢
        exact charListLt_trans xs ys zs h1 h2
      · rw [if_neg (not_lt.mpr (le_of_lt hxz)), if_pos hxz] at h2
        exact absurd h2 (by simp)
    · rw [if_neg (not_lt.mpr (le_of_lt hxy)), if_pos hxy] at h1
      exact absurd h1 (by simp)

theorem charListLt_or_of_ne : ∀ (a b : List Char), a ≠ b →
    charListLt a b = true ∨ charListLt b a = true
  | [], [], h => absurd rfl h
  | [], _ :: _, _ => Or.inl (by simp [charListLt])
  | _ :: _, [], _ => Or.inr (by simp [charListLt])
  | x :: xs, y :: ys, h => by
    simp only [charListLt]
    rcases lt_trichotomy x y with hl | he | hg
    · left
      simp [hl]
    · subst he
      have hne : xs ≠ ys := fun hh => h (by rw [hh])
      rcases charListLt_or_of_ne xs ys hne with h1 | h1
      · left
        simp [lt_irrefl, h1]
      · right
        simp [lt_irrefl, h1]
    · right
      simp [hg]

instance : IsTotal NormalizedRecord keyLE := ⟨by
  intro a b
  unfold keyLE
  by_cases he : (sort_key a).1 = (sort_key b).1
  · rcases le_total (sort_key a).2 (sort_key b).2 with h2 | h2
    · exact Or.inl (Or.inr ⟨he, h2⟩)
    · exact Or.inr (Or.inr ⟨he.symm, h2⟩)
  · have hne : (sort_key a).1.data ≠ (sort_key b).1.data :=
      fun hh => he (String.ext hh)
    rcases charListLt_or_of_ne _ _ hne with h1 | h1
    · exact Or.inl (Or.inl h1)
    · exact Or.inr (Or.inl h1)⟩

theorem charListLt_irrefl : ∀ (l : List Char), ¬ charListLt l l = true
  | [] => by simp [charListLt]
  | c :: cs => by
    intro h
    simp only [charListLt] at h
    rw [if_neg (lt_irrefl c), if_neg (lt_irrefl c)] at h
    exact charListLt_irrefl cs h

theorem strLtB_irrefl (s : String) : ¬ strLtB s s = true :=
  charListLt_irrefl s.data

instance : IsTrans NormalizedRecord keyLE := ⟨by
  intro a b c hab hbc
  unfold keyLE at hab hbc ⊢
  rcases hab with h | ⟨he, hq⟩ <;> rcases hbc with h2 | ⟨he2, hq2⟩
  · exact Or.inl (charListLt_trans _ _ _ h h2)
  · exact Or.inl (he2 ▸ h)
  · exact Or.inl (he ▸ h2)
  · exact Or.inr ⟨he.trans he2, le_trans hq hq2⟩⟩

theorem keyLE_of_key_eq {a b : NormalizedRecord}
    (h : sort_key a = sort_key b) : keyLE a b := by
  unfold keyLE
  exact Or.inr ⟨congrArg Prod.fst h, le_of_eq (congrArg Prod.snd h)⟩

theorem line_for_ok (header : String) (item : NormalizedRecord)
    (h : pyStarts header overdueHeaderStart = true →
      item.date_remaining.isSome = true) :
    line_for header item = .ok (lineStr header item) := by
  unfold lineStr line_for
  by_cases h1 : pyStarts header overdueHeaderStart
  · have hs := h h1
    cases hdr : item.date_remaining with
    | none => rw [hdr] at hs; simp at hs
    | some d => simp [h1, hdr]
  · by_cases h2 : pyStarts header todayHeaderStart <;> simp [h1, h2]

theorem mapExcept_ok {α β ε : Type} (f : α → Except ε β) (g : α → β)
    (l : List α) (h : ∀ a ∈ l, f a = .ok (g a)) :
    mapExcept f l = .ok (l.map g) := by
  induction l with
  | nil => rfl
  | cons a as ih =>
    have ha := h a (List.mem_cons_self a as)
    have has := ih fun b hb => h b (List.mem_cons_of_mem a hb)
    simp [mapExcept, ha, has]

theorem mapExcept_map {α β γ ε : Type} (f : β → Except ε γ) (g : α → β)
    (l : List α) :
    mapExcept f (l.map g) = mapExcept (fun a => f (g a)) l := by
  induction l with
  | nil => rfl
  | cons a as ih =>
    cases h : f (g a) <;> simp [mapExcept, h, ih]

theorem section_lines_ok (header : String) (items : List NormalizedRecord)
    (h : ∀ r ∈ items, line_for header r = .ok (lineStr header r)) :
    section_lines header items = .ok (header ::
      ((pySort items).take 4).map (lineStr header) ++
      (if 4 < items.length then [overflowLine (items.length - 4)]
        else [])) := by
  unfold section_lines
  have hm : mapExcept (line_for header) ((pySort items).take 4) =
      .ok (((pySort items).take 4).map (lineStr header)) :=
    mapExcept_ok _ _ _ fun a ha => h a (by
      have hmem := List.mem_of_mem_take ha
      simpa [pySort] using hmem)
  dsimp only
  rw [hm]
  have hlen : (pySort items).length = items.length := by simp [pySort]
  rw [List.length_take, hlen]
  by_cases h4 : 4 < items.length
  · rw [if_pos (by omega), if_pos h4]
    have : items.length - min 4 items.length = items.length - 4 := by omega
    rw [this]
  · rw [if_neg (by omega), if_neg h4]

/-- C4: for any header and any record list whose members carry a day offset,
the section renderer succeeds and produces the header followed by one line
per record of the first four records of the stably sorted list (sorted by
renewal date ascending, then raw cost descending) and, when more than four
records exist, one final overflow line naming the number of hidden records;
moreover the sorted list is a permutation of the input sorted by the
composite key, and the equal-renewal pair with costs 5000 and 9000 sorts
with the 9000 record first. -/
theorem section_render_sort_take_overflow :
    (∀ header items,
      (∀ r ∈ items, (r.date_remaining).isSome = true) →
      ∃ body, section_lines header items = .ok (header :: body) ∧
        body = ((pySort items).take 4).map (lineStr header) ++
          (if 4 < items.length then [overflowLine (items.length - 4)]
            else []) ∧
        List.Perm (pySort items) items ∧
        List.Sorted keyLE (pySort items) ∧
        body.length = min 4 items.length +
          (if 4 < items.length then 1 else 0) ∧
        (4 < items.length →
          body.getLast? = some (overflowLine (items.length - 4)))) ∧
    pySort [pairLow, pairHigh] = [pairHigh, pairLow] := by
  constructor
  · intro header items hdr
    have hl : ∀ r ∈ items, line_for header r = .ok (lineStr header r) :=
      fun r hrm => line_for_ok header r (fun _ => hdr r hrm)
    refine ⟨_, section_lines_ok header items hl, rfl, ?_, ?_, ?_, ?_⟩
    · simpa [pySort] using List.perm_insertionSort keyLE items
    · simpa [pySort] using List.sorted_insertionSort keyLE items
    · by_cases h4 : 4 < items.length <;>
        simp [h4, List.length_take, pySort, Nat.min_comm]
    · intro h4
      rw [if_pos h4]
      exact List.getLast?_concat _
  · decide

/-- Witness for C4 at the six-record due-soon list: the block renders four
lines plus the overflow line for the two hidden records. -/
theorem section_render_sort_take_overflow_witness :
    ∃ body, section_lines DUE_SOON_HEADER sixRecs =
        .ok (DUE_SOON_HEADER :: body) ∧
      body = ((pySort sixRecs).take 4).map (lineStr DUE_SOON_HEADER) ++
        (if 4 < sixRecs.length then [overflowLine (sixRecs.length - 4)]
          else []) ∧
      List.Perm (pySort sixRecs) sixRecs ∧
      List.Sorted keyLE (pySort sixRecs) ∧
      body.length = min 4 sixRecs.length +
        (if 4 < sixRecs.length then 1 else 0) ∧
      (4 < sixRecs.length →
        body.getLast? = some (overflowLine (sixRecs.length - 4))) :=
  section_render_sort_take_overflow.1 DUE_SOON_HEADER sixRecs (by decide)

/-- C9: the sort of the renderer is stable: for every key value, the
subsequence of records carrying that composite sort key is the same, in the
same order, before and after sorting. -/
theorem render_sort_stable (items : List NormalizedRecord) (k : String × ℚ) :
    (pySort items).filter (fun r => decide (sort_key r = k)) =
      items.filter (fun r => decide (sort_key r = k)) := by
  simp only [pySort]
  have hperm : List.Perm
      ((List.insertionSort keyLE items).filter
        (fun r => decide (sort_key r = k)))
      (items.filter (fun r => decide (sort_key r = k))) :=
    (List.perm_insertionSort keyLE items).filter _
  have hpair : (items.filter (fun r => decide (sort_key r = k))).Pairwise
      keyLE := by
    apply List.pairwise_of_forall_mem_list
    intro a ha b hb
    have hka : sort_key a = k := by
      simpa using (List.mem_filter.mp ha).2
    have hkb : sort_key b = k := by
      simpa using (List.mem_filter.mp hb).2
    exact keyLE_of_key_eq (hka.trans hkb.symm)
  have hsub : List.Sublist
      (items.filter (fun r => decide (sort_key r = k)))
      (List.insertionSort keyLE items) :=
    List.sublist_insertionSort hpair (List.filter_sublist items)
  have hself : (items.filter (fun r => decide (sort_key r = k))).filter
      (fun r => decide (sort_key r = k)) =
      items.filter (fun r => decide (sort_key r = k)) :=
    List.filter_eq_self.mpr fun a ha => (List.mem_filter.mp ha).2
  have hsub2 : List.Sublist
      (items.filter (fun r => decide (sort_key r = k)))
      ((List.insertionSort keyLE items).filter
        (fun r => decide (sort_key r = k))) := by
    have hf := hsub.filter (fun r => decide (sort_key r = k))
    rwa [hself] at hf
  exact (hsub2.eq_of_length hperm.length_eq.symm).symm

theorem map_deref_orderedInsert (recs : List NormalizedRecord) (i : Nat)
    (t : List Nat) :
    (List.orderedInsert (keyLEH recs) i t).map (deref recs) =
      List.orderedInsert keyLE (deref recs i) (t.map (deref recs)) := by
  induction t with
  | nil => rfl
  | cons j t ih =>
    by_cases h : keyLE (deref recs i) (deref recs j)
    · simp [List.orderedInsert, keyLEH, h]
    · simp [List.orderedInsert, keyLEH, h, ih]

theorem map_deref_insertionSort (recs : List NormalizedRecord)
    (ids : List Nat) :
    (List.insertionSort (keyLEH recs) ids).map (deref recs) =
      List.insertionSort keyLE (ids.map (deref recs)) := by
  induction ids with
  | nil => rfl
  | cons i ids ih =>
    simp only [List.insertionSort, List.map_cons]
    rw [map_deref_orderedInsert, ih]

/-- C10: rendering a category through the record heap returns the heap
exactly as received (the sort builds a fresh list and every record access is
a read), each record is unchanged, the produced message agrees with the
value-level renderer applied to the dereferenced records, and a later render
from the returned heap coincides with a render from the original heap. -/
theorem render_heap_frame (recs : List NormalizedRecord) (header : String)
    (items : List Nat) :
    (gsm_heap recs header items).2 = recs ∧
    (∀ i, (gsm_heap recs header items).2.getD i default =
      recs.getD i default) ∧
    (gsm_heap recs header items).1 =
      generate_section_message header (items.map (deref recs)) ∧
    (∀ header2 items2,
      gsm_heap (gsm_heap recs header items).2 header2 items2 =
        gsm_heap recs header2 items2) := by
  have hstate : (gsm_heap recs header items).2 = recs := by
    unfold gsm_heap
    cases h : mapExcept (fun i => line_for header (deref recs i))
        ((List.insertionSort (keyLEH recs) items).take 4) <;> simp [h]
  refine ⟨hstate, fun i => by rw [hstate], ?_,
    fun h2 i2 => by rw [hstate]⟩
  have hs : List.insertionSort keyLE (items.map (deref recs)) =
      (List.insertionSort (keyLEH recs) items).map (deref recs) :=
    (map_deref_insertionSort recs items).symm
  unfold gsm_heap generate_section_message section_lines pySort
  dsimp only
  rw [hs, ← List.map_take, mapExcept_map]
  cases h : mapExcept (fun i => line_for header (deref recs i))
      ((List.insertionSort (keyLEH recs) items).take 4) <;>
    simp [h, List.length_take]

theorem joinSep_cons_head (h : String) (t : List String) :
    ∃ r, joinSep "\n" (h :: t) = h ++ r := by
  cases t with
  | nil => exact ⟨"", (String.append_empty h).symm⟩
  | cons s rest =>
    exact ⟨"\n" ++ joinSep "\n" (s :: rest), by
      simp [joinSep, String.append_assoc]⟩

theorem gsm_ok (header : String) (items : List NormalizedRecord)
    (h : ∀ r ∈ items, line_for header r = .ok (lineStr header r)) :
    ∃ rest, generate_section_message header items = .ok (header ++ rest) := by
  have hsl := section_lines_ok header items h
  unfold generate_section_message
  rw [hsl]
  dsimp only
  obtain ⟨r, hr⟩ := joinSep_cons_head header
    (((pySort items).take 4).map (lineStr header) ++
      (if 4 < items.length then [overflowLine (items.length - 4)] else []))
  exact ⟨r, congrArg Except.ok hr⟩

/-- C6: the rendered blocks come in the fixed order overdue, due_today,
due_soon; each non-empty category contributes exactly one block opening with
its fixed header, an empty category contributes nothing, and at most three
blocks are produced. -/
theorem notification_blocks_order (od dt ds : List NormalizedRecord)
    (hod : ∀ r ∈ od, (r.date_remaining).isSome = true) :
    ∃ bo bt bs,
      generate_notification_messages od dt ds = .ok
        ((if od.isEmpty then [] else [bo]) ++
         (if dt.isEmpty then [] else [bt]) ++
         (if ds.isEmpty then [] else [bs])) ∧
      (∃ r, bo = OVERDUE_HEADER ++ r) ∧
      (∃ r, bt = DUE_TODAY_HEADER ++ r) ∧
      (∃ r, bs = DUE_SOON_HEADER ++ r) ∧
      ((if od.isEmpty then ([] : List String) else [bo]) ++
       (if dt.isEmpty then [] else [bt]) ++
       (if ds.isEmpty then [] else [bs])).length ≤ 3 := by
  obtain ⟨ro, hro⟩ := gsm_ok OVERDUE_HEADER od
    (fun r hr => line_for_ok _ r (fun _ => hod r hr))
  obtain ⟨rt, hrt⟩ := gsm_ok DUE_TODAY_HEADER dt
    (fun r hr => line_for_ok _ r (fun hh => absurd hh (by decide)))
  obtain ⟨rs, hrs⟩ := gsm_ok DUE_SOON_HEADER ds
    (fun r hr => line_for_ok _ r (fun hh => absurd hh (by decide)))
  refine ⟨OVERDUE_HEADER ++ ro, DUE_TODAY_HEADER ++ rt, DUE_SOON_HEADER ++ rs,
    ?_, ⟨ro, rfl⟩, ⟨rt, rfl⟩, ⟨rs, rfl⟩, ?_⟩
  · unfold generate_notification_messages
    by_cases h1 : od.isEmpty <;> by_cases h2 : dt.isEmpty <;>
      by_cases h3 : ds.isEmpty <;>
      simp [h1, h2, h3, hro, hrt, hrs, Bind.bind, Except.bind, Pure.pure,
        Except.pure]
  · by_cases h1 : od.isEmpty <;> by_cases h2 : dt.isEmpty <;>
      by_cases h3 : ds.isEmpty <;> simp [h1, h2, h3]

/-- Witness for C6 with a non-empty overdue category and empty others: one
block is produced and it opens with the overdue header. -/
theorem notification_blocks_order_witness :
    ∃ bo bt bs,
      generate_notification_messages [netflixRec] [] [] = .ok
        ((if ([netflixRec] : List NormalizedRecord).isEmpty then []
            else [bo]) ++
         (if ([] : List NormalizedRecord).isEmpty then [] else [bt]) ++
         (if ([] : List NormalizedRecord).isEmpty then [] else [bs])) ∧
      (∃ r, bo = OVERDUE_HEADER ++ r) ∧
      (∃ r, bt = DUE_TODAY_HEADER ++ r) ∧
      (∃ r, bs = DUE_SOON_HEADER ++ r) ∧
      ((if ([netflixRec] : List NormalizedRecord).isEmpty then
          ([] : List String) else [bo]) ++
       (if ([] : List NormalizedRecord).isEmpty then [] else [bt]) ++
       (if ([] : List NormalizedRecord).isEmpty then [] else [bs])).length
        ≤ 3 :=
  notification_blocks_order [netflixRec] [] [] (by decide)

/-- C5: a displayed line is the bullet, the name, the formatted cost and the
renewal date separated by pipes, absent fields rendering as the empty
string, with the date label D+ the absolute offset for the overdue header,
the literal D-0 for the due-today header and D- the offset for the due-soon
header; the overdue Netflix record at cost 12000 renders as the block with
the line for D+3. -/
theorem section_line_format :
    (∀ item : NormalizedRecord, ∀ d : Int, item.date_remaining = some d →
      line_for OVERDUE_HEADER item = .ok ("  • " ++ item.name.getD "" ++
        " | " ++ item.cost.getD "" ++ " | D+" ++ toString d.natAbs ++
        " (" ++ item.next_renewal.getD "" ++ ")")) ∧
    (∀ item : NormalizedRecord,
      line_for DUE_TODAY_HEADER item = .ok ("  • " ++ item.name.getD "" ++
        " | " ++ item.cost.getD "" ++ " | D-0 (" ++
        item.next_renewal.getD "" ++ ")")) ∧
    (∀ item : NormalizedRecord, ∀ d : Int, item.date_remaining = some d →
      line_for DUE_SOON_HEADER item = .ok ("  • " ++ item.name.getD "" ++
        " | " ++ item.cost.getD "" ++ " | D-" ++ toString d ++
        " (" ++ item.next_renewal.getD "" ++ ")")) ∧
    filter_for_notifications [netflixRec] = ([], [], [netflixRec]) ∧
    generate_section_message OVERDUE_HEADER [netflixRec] =
      .ok (OVERDUE_HEADER ++ "\n" ++
        "  • Netflix | ₩12,000 | D+3 (2024-01-01)") := by
  have hov : pyStarts OVERDUE_HEADER overdueHeaderStart = true := by decide
  have ht1 : pyStarts DUE_TODAY_HEADER overdueHeaderStart = false := by decide
  have ht2 : pyStarts DUE_TODAY_HEADER todayHeaderStart = true := by decide
  have hs1 : pyStarts DUE_SOON_HEADER overdueHeaderStart = false := by decide
  have hs2 : pyStarts DUE_SOON_HEADER todayHeaderStart = false := by decide
  refine ⟨?_, ?_, ?_, by decide, ?_⟩
  · intro item d hd
    simp [line_for, hov, hd]
  · intro item
    simp [line_for, ht1, ht2]
  · intro item d hd
    simp [line_for, hs1, hs2, hd, pyOptIntStr]
  · rfl

/-- Witness for C5: the due-today line of a record with every optional
display field absent renders the empty strings in place, and the overdue
Netflix record renders with the D+3 label. -/
theorem section_line_format_witness :
    line_for DUE_TODAY_HEADER (default : NormalizedRecord) =
      .ok ("  • " ++ (default : NormalizedRecord).name.getD "" ++
        " | " ++ (default : NormalizedRecord).cost.getD "" ++ " | D-0 (" ++
        (default : NormalizedRecord).next_renewal.getD "" ++ ")") ∧
    line_for OVERDUE_HEADER netflixRec =
      .ok ("  • " ++ netflixRec.name.getD "" ++ " | " ++
        netflixRec.cost.getD "" ++ " | D+" ++ toString (Int.natAbs (-3)) ++
        " (" ++ netflixRec.next_renewal.getD "" ++ ")") :=
  ⟨section_line_format.2.1 default,
    section_line_format.1 netflixRec (-3) rfl⟩

/-- C7 counterexample: with both credentials configured and the first
dispatch failing, the second rendered block is never printed, so a failing
dispatch of an earlier block does prevent later blocks from being emitted. -/
theorem emitted_blocks_lost_after_dispatch_failure :
    (emit_loop true (fun _ => false) 0 ["A", "B"]).1 = ["\nA"] ∧
    "\nB" ∉ (emit_loop true (fun _ => false) 0 ["A", "B"]).1 := by
  constructor
  · rfl
  · decide

/-- C7 amended: without credentials, or when every dispatch succeeds, every
rendered block is printed; in general the printed outputs are the prefix of
the blocks up to and including the block whose dispatch failed (each block
is printed before its own dispatch is attempted), and on a dispatch failure
the loop aborts so the remaining blocks are not printed. -/
theorem emitted_blocks_up_to_first_failure (creds : Bool)
    (oracle : Nat → Bool) (messages : List String) (start : Nat) :
    (creds = false →
      (emit_loop creds oracle start messages).1 =
        messages.map (fun m => "\n" ++ m)) ∧
    ((∀ i, oracle i = true) →
      (emit_loop creds oracle start messages).1 =
        messages.map (fun m => "\n" ++ m)) ∧
    (∃ k, k ≤ messages.length ∧
      (emit_loop creds oracle start messages).1 =
        (messages.take k).map (fun m => "\n" ++ m) ∧
      ((emit_loop creds oracle start messages).2 = true →
        k = messages.length) ∧
      ((emit_loop creds oracle start messages).2 = false →
        creds = true ∧ 0 < k ∧ oracle (start + k - 1) = false)) := by
  induction messages generalizing start with
  | nil =>
    refine ⟨fun _ => rfl, fun _ => rfl, 0, le_refl 0, rfl, fun _ => rfl,
      fun hf => ?_⟩
    simp [emit_loop] at hf
  | cons m rest ih =>
    cases creds with
    | false =>
      obtain ⟨ih1, ih2, k, hk, heq, hsucc, hfail⟩ := ih (start + 1)
      refine ⟨fun _ => ?_, fun _ => ?_, k + 1, by simpa using hk, ?_, ?_, ?_⟩
      · simp [emit_loop, ih1 rfl]
      · simp [emit_loop, ih1 rfl]
      · simp [emit_loop, heq]
      · intro hok
        simp only [emit_loop] at hok
        rw [hsucc (by simpa using hok)]
        simp
      · intro hbad
        simp only [emit_loop] at hbad
        exact absurd (hfail (by simpa using hbad)).1 (by simp)
    | true =>
      cases ho : oracle start with
      | true =>
        obtain ⟨ih1, ih2, k, hk, heq, hsucc, hfail⟩ := ih (start + 1)
        refine ⟨fun hcf => by simp at hcf, fun hall => ?_, k + 1,
          by simpa using hk, ?_, ?_, ?_⟩
        · simp [emit_loop, ho, ih2 hall]
        · simp [emit_loop, ho, heq]
        · intro hok
          simp only [emit_loop, ho] at hok
          rw [hsucc (by simpa using hok)]
          simp
        · intro hbad
          simp only [emit_loop, ho] at hbad
          obtain ⟨-, hkpos, hor⟩ := hfail (by simpa using hbad)
          refine ⟨rfl, by omega, ?_⟩
          have harith : start + (k + 1) - 1 = start + 1 + k - 1 := by omega
          rw [harith]
          exact hor
      | false =>
        refine ⟨fun hcf => by simp at hcf, fun hall => ?_, 1, by simp, ?_,
          ?_, ?_⟩
        · exact absurd (hall start) (by simp [ho])
        · simp [emit_loop, ho]
        · intro hok
          simp [emit_loop, ho] at hok
        · intro hbad
          refine ⟨rfl, by omega, ?_⟩
          simpa using ho

/-- Witness for C7: without credentials both blocks are printed. -/
theorem emitted_blocks_up_to_first_failure_witness :
    (emit_loop false (fun _ => true) 0 ["A", "B"]).1 =
      (["A", "B"] : List String).map (fun m => "\n" ++ m) :=
  (emitted_blocks_up_to_first_failure false (fun _ => true) ["A", "B"] 0).1
    rfl

/-- C2 (code bug): a null intermediate value on the Next Renewal path makes
the whole extraction raise AttributeError, and a non-numeric Cost value
makes it raise ValueError, instead of degrading the single field; with the
Next Renewal property missing (rather than null) the record is produced
with exactly that field absent and all other fields populated. -/
theorem extractor_aborts_on_malformed_optional_field :
    extract_notion_fields (.obj [("results", .arr [rowNullDate])]) =
      .error .attrErr ∧
    extract_notion_fields (.obj [("results", .arr [rowBadCost])]) =
      .error .valueErr ∧
    (∃ rec, extract_row rowNoRenewal = .ok rec ∧
      rec.next_renewal = J.null ∧
      rec.name = .str "Netflix" ∧
      rec.cost = .str "₩15,000" ∧
      rec.cost_raw = .num 15000 ∧
      rec.date_remaining = .num 3 ∧
      rec.status = .str "Active") :=
  ⟨rfl, rfl, ⟨_, rfl, rfl, rfl, rfl, rfl, rfl, rfl⟩⟩

theorem exceptBind_ok {ε α β : Type} {x : Except ε α} {f : α → Except ε β}
    {b : β} (h : (x >>= f) = .ok b) : ∃ a, x = .ok a ∧ f a = .ok b := by
  cases x with
  | error e => simp [Bind.bind, Except.bind] at h
  | ok a =>
    refine ⟨a, rfl, ?_⟩
    simpa [Bind.bind, Except.bind] using h

theorem mkCostFormatted_ok (c v : J) (h : mkCostFormatted c = .ok v) :
    (v = J.null ↔ c = J.null) ∧
    (∀ q : ℚ, c = .num q → v = .str ("₩" ++ pyIntComma (ratTrunc q))) ∧
    (c ≠ J.null → ∃ s, v = .str s) := by
  cases c with
  | null =>
    simp [mkCostFormatted] at h
    simp [h.symm]
  | bool b =>
    simp [mkCostFormatted, pyIntOfJ, Bind.bind, Except.bind] at h
    subst h
    simp
  | num q =>
    simp [mkCostFormatted, pyIntOfJ, Bind.bind, Except.bind] at h
    subst h
    refine ⟨by simp, ?_, by simp⟩
    intro q2 hq
    obtain rfl : q = q2 := by injection hq
    rfl
  | str s =>
    simp only [mkCostFormatted, pyIntOfJ] at h
    cases ht : pyIntParse s.data with
    | none => rw [ht] at h; simp [Bind.bind, Except.bind] at h
    | some n =>
      rw [ht] at h
      simp [Bind.bind, Except.bind] at h
      subst h
      simp
  | arr xs => simp [mkCostFormatted, pyIntOfJ, Bind.bind, Except.bind] at h
  | obj kvs => simp [mkCostFormatted, pyIntOfJ, Bind.bind, Except.bind] at h

/-- The cost fields of any successfully extracted record: the raw cost is
the caught Cost lookup and the display cost comes from mkCostFormatted on
it. -/
theorem extract_row_cost_fields (row : J) (rec : JRecord)
    (h : extract_row row = .ok rec) :
    mkCostFormatted rec.cost_raw = .ok rec.cost := by
  unfold extract_row at h
  obtain ⟨props, hp, h⟩ := exceptBind_ok h
  obtain ⟨cf, hcf, h⟩ := exceptBind_ok h
  obtain ⟨nr, hnr, h⟩ := exceptBind_ok h
  obtain ⟨b2, hb2, h⟩ := exceptBind_ok h
  obtain ⟨c2, hc2, h⟩ := exceptBind_ok h
  obtain ⟨y2, hy2, h⟩ := exceptBind_ok h
  obtain rfl := Except.ok.inj h
  exact hcf

/-- C3 amended: for every raw row that extracts successfully, the display
cost is absent exactly when the raw cost is absent, and for a numeric raw
cost it is the currency sign followed by the comma-grouped truncation of
the cost toward zero (Python's int()), not its rounding to nearest. -/
theorem cost_display_truncation (row : J) (rec : JRecord)
    (h : extract_row row = .ok rec) :
    (rec.cost = J.null ↔ rec.cost_raw = J.null) ∧
    (∀ q : ℚ, rec.cost_raw = .num q →
      rec.cost = .str ("₩" ++ pyIntComma (ratTrunc q))) ∧
    (rec.cost_raw ≠ J.null → ∃ s, rec.cost = .str s) :=
  mkCostFormatted_ok rec.cost_raw rec.cost (extract_row_cost_fields row rec h)

/-- Witness for C3 at raw cost 15000: the display string is the grouped
truncation with the currency sign. -/
theorem cost_display_truncation_witness :
    (∃ rec, extract_row (rowCost (.num 15000)) = .ok rec ∧
      rec.cost = .str ("₩" ++ pyIntComma (ratTrunc 15000))) ∧
    "₩" ++ pyIntComma (ratTrunc 15000) = "₩15,000" := by
  constructor
  · exact ⟨rec15000, rfl,
      (cost_display_truncation (rowCost (.num 15000)) rec15000 rfl).2.1
        15000 rfl⟩
  · decide

/-- C3 counterexample: at the raw cost three fifths the extractor displays
the truncation 0, while 1 is the unique nearest integer (the claimed
rounding), so the display differs from the spec-worded display at this
input. -/
theorem cost_display_not_nearest_rounding :
    (extract_row (rowCost (.num (mkRat 3 5))) = .ok recFrac ∧
      recFrac.cost = .str "₩0") ∧
    roundNearest (mkRat 3 5) = 1 ∧
    "₩0" ≠ cost_display_spec (mkRat 3 5) ∧
    (∀ m : Int, m ≠ 1 → |(mkRat 3 5 : ℚ) - 1| < |(mkRat 3 5 : ℚ) - m|) := by
  have key : (mkRat 3 5 : ℚ) = 3 / 5 := by
    rw [Rat.mkRat_eq_div]
    norm_num
  have h2 : roundNearest (mkRat 3 5) = 1 := by
    rw [roundNearest, key, Int.floor_eq_iff]
    norm_num
  refine ⟨⟨rfl, rfl⟩, h2, ?_, ?_⟩
  · rw [cost_display_spec, h2]
    decide
  · intro m hm
    rw [key]
    have h1 : |(3 / 5 : ℚ) - 1| = 2 / 5 := by
      rw [abs_sub_comm, abs_of_nonneg (by norm_num)]
      norm_num
    rw [h1]
    rcases (by omega : m ≤ 0 ∨ 2 ≤ m) with hm2 | hm2
    · have hq : (m : ℚ) ≤ 0 := by exact_mod_cast hm2
      have h3 : (3 / 5 : ℚ) - m ≤ |(3 / 5 : ℚ) - m| := le_abs_self _
      linarith
    · have hq : (2 : ℚ) ≤ (m : ℚ) := by exact_mod_cast hm2
      have h3 : (m : ℚ) - 3 / 5 ≤ |(3 / 5 : ℚ) - m| := by
        rw [abs_sub_comm]
        exact le_abs_self _
      linarith
